import Mathlib

/-!
Shallow embedding of the chat front-end in `app.py`: the conversation
builder, the stream segmenter and the transcript accumulator of
`chat_with_qwen`, together with theorems about their behaviour.
-/

set_option autoImplicit false

namespace QwenChat

/-- Message roles used in the wire format sent to the inference engine. -/
inductive Role where
  | system
  | user
  | assistant
  deriving DecidableEq, Repr

/-- One role-tagged message of the engine request. -/
structure ChatMsg where
  role : Role
  content : String
  deriving DecidableEq, Repr

/-- One exchange: user text paired with (possibly in-flight) assistant text.
Mirrors the `[user_msg, bot_msg]` pairs of the Gradio history. -/
abbrev Turn := String × String

/-- The ordered history of turns. -/
abbrev Transcript := List Turn

/-- The fixed policy preamble (`system_prompt` in `chat_with_qwen`, before the
mode suffix is appended). -/
def system_prompt : String :=
  "You are a helpful and secure AI assistant.\n\nYour primary responsibility is to protect user privacy. You must never process, store, or respond to queries containing a Social Security Number (SSN).\n\nAn SSN is a nine-digit number, often formatted as XXX-XX-XXXX, XXX XX XXXX, or XXXXXXXXX. It is a sensitive US government identifier. Do not confuse it with phone numbers or other numerical data.\n\n**Rule:** If you detect a potential SSN in the user's query, you must immediately stop and respond with ONLY the following exact message: \"Sensitive SSN is detected, and the query is blocked.\"\n\nHere are some examples:\n\nUser: \"My SSN is 123-45-6789, can you check its validity?\"\nAssistant: \"Sensitive SSN is detected, and the query is blocked.\"\n\nUser: \"I think my social is 987 65 4321, what should I do?\"\nAssistant: \"Sensitive SSN is detected, and the query is blocked.\"\n\nUser: \"Can you call me at 555-867-5309 to discuss my account?\"\nAssistant: \"As an AI, I cannot make phone calls, but I'd be happy to help you here. What is your question about your account?\"\n\nUser: \"What is the capital of France?\"\nAssistant: \"The capital of France is Paris.\"\n\nFor all other queries that do not contain an SSN, answer helpfully and thoughtfully."

/-- Reasoning-segment start marker (the literal tag checked on line 128). -/
def startMarker : String := "<think>"

/-- Reasoning-segment end marker (the literal tag checked on line 132). -/
def endMarker : String := "</think>"

/-- Whether `pat` occurs as a contiguous run in a character list. -/
def hasSubList (pat : List Char) : List Char → Bool
  | [] => pat.isPrefixOf []
  | c :: cs => pat.isPrefixOf (c :: cs) || hasSubList pat cs

/-- Python's substring test `pat in s`: `pat` occurs contiguously in `s`. -/
def hasSub (s pat : String) : Bool :=
  hasSubList pat.toList s.toList

/-- Classification of one nonempty fragment, per the spec's vocabulary:
a fragment is routed either to the diagnostic channel (`reasoning`)
or into the visible answer (`visible`). -/
inductive Classification where
  | reasoning
  | visible
  deriving DecidableEq, Repr

/-- One step of the segmenter branch of `chat_with_qwen` (lines 128-138) on a
nonempty fragment text: given the mode flag and the current `is_thinking`
state, return the fragment's classification and the next `is_thinking` state.
The branch structure mirrors the source:
`if is_thinking or (think_mode and start in content)` selects the reasoning
path; inside it, `if not is_thinking` enters the segment, `elif end in
content` leaves it, `else` stays; otherwise the fragment is visible. -/
def stepSeg (think_mode : Bool) (is_thinking : Bool) (content : String) :
    Classification × Bool :=
  if is_thinking || (think_mode && hasSub content startMarker) then
    if !is_thinking then
      (Classification.reasoning, true)
    else if hasSub content endMarker then
      (Classification.reasoning, false)
    else
      (Classification.reasoning, true)
  else
    (Classification.visible, is_thinking)

/-- Per-turn mutable state of the streaming loop: the accumulated visible
answer `full_response` and the `is_thinking` flag. -/
structure SegState where
  full_response : String
  is_thinking : Bool
  deriving DecidableEq, Repr

/-- State at stream start: `full_response = ""`, `is_thinking = False`
(lines 115-116). -/
def initState : SegState := { full_response := "", is_thinking := false }

/-- One iteration of the `for chunk in response_stream` loop (lines 117-143)
on one fragment. `none` models a chunk whose delta lacks a content field or
carries `None`; the code turns both into `""` and `if not content: continue`
drops them. The returned Bool records whether this iteration yielded an
updated history (one `yield` per visible fragment, line 143). -/
def stepFrag (think_mode : Bool) (st : SegState) (frag : Option String) :
    SegState × Bool :=
  match frag with
  | none => (st, false)
  | some content =>
    if content = "" then
      (st, false)
    else
      match stepSeg think_mode st.is_thinking content with
      | (Classification.reasoning, t) =>
        ({ st with is_thinking := t }, false)
      | (Classification.visible, _) =>
        ({ st with full_response := st.full_response ++ content }, true)

/-- Run the streaming loop over a whole fragment list. -/
def runFrags (think_mode : Bool) : SegState → List (Option String) → SegState
  | st, [] => st
  | st, f :: fs => runFrags think_mode (stepFrag think_mode st f).1 fs

/-- Final `full_response` of one turn processed from the initial state. -/
def assistantText (think_mode : Bool) (frags : List (Option String)) : String :=
  (runFrags think_mode initState frags).full_response

/-- The classification stream: the list of (text, classification) pairs for
the nonempty fragments, in arrival order, threading the `is_thinking` state
exactly as the loop does. Empty and contentless fragments are dropped and
never classified. -/
def classifySeq (think_mode : Bool) :
    Bool → List (Option String) → List (String × Classification)
  | _, [] => []
  | inT, f :: fs =>
    match f with
    | none => classifySeq think_mode inT fs
    | some content =>
      if content = "" then
        classifySeq think_mode inT fs
      else
        let r := stepSeg think_mode inT content
        (content, r.1) :: classifySeq think_mode r.2 fs

/-- Texts of the fragments classified `visible`, in arrival order. -/
def visibleTexts (think_mode : Bool) (inT : Bool)
    (frags : List (Option String)) : List String :=
  (classifySeq think_mode inT frags).filterMap fun p =>
    match p.2 with
    | Classification.visible => some p.1
    | Classification.reasoning => none

/-- Concatenation of a list of strings in order. -/
def concatList : List String → String
  | [] => ""
  | s :: rest => s ++ concatList rest

/-- The transcript as the renderer sees it mid-turn: the prior history plus
the in-flight turn `[message, full_response]` (lines 104 and 142). -/
def transcriptView (history : Transcript) (message : String) (st : SegState) :
    Transcript :=
  history ++ [(message, st.full_response)]

/-- The sequence of history snapshots yielded by the loop (line 143): one
snapshot after each visible fragment, none for dropped or reasoning
fragments. -/
def runEmits (think_mode : Bool) (history : Transcript) (message : String) :
    SegState → List (Option String) → List Transcript
  | _, [] => []
  | st, f :: fs =>
    let r := stepFrag think_mode st f
    (if r.2 then [transcriptView history message r.1] else []) ++
      runEmits think_mode history message r.1 fs

/-- The messages list built on lines 93-102: the system prompt with the
mode suffix chosen exactly as `system_prompt + \x22 /think\x22 if think_mode
else system_prompt + \x22 /nothink\x22`, then the loop appending one user and
one assistant message per prior turn, then the new user message. -/
def buildMessages (think_mode : Bool) (history : Transcript)
    (message : String) : List ChatMsg :=
  let sp :=
    if think_mode then system_prompt ++ " /think"
    else system_prompt ++ " /nothink"
  let ms := history.foldl
    (fun acc t =>
      acc ++ [{ role := Role.user, content := t.1 },
              { role := Role.assistant, content := t.2 }])
    [{ role := Role.system, content := sp }]
  ms ++ [{ role := Role.user, content := message }]

/-- The side effect on line 104: `history.append([message, \x22\x22])`. -/
def historyAfterSubmit (history : Transcript) (message : String) : Transcript :=
  history ++ [(message, "")]

/-- Spec-side description of the conversation builder, following the words of
the contract: one system message (preamble with a mode-specific suffix
appended), then one user/assistant pair per prior turn in original order,
then the new user message. Stated independently of the source's fold so the
two can be compared. -/
def builderSpec (think_mode : Bool) (history : Transcript)
    (message : String) : List ChatMsg :=
  { role := Role.system,
    content :=
      system_prompt ++ (if think_mode then " /think" else " /nothink") } ::
    (history.flatMap fun t =>
      [{ role := Role.user, content := t.1 },
       { role := Role.assistant, content := t.2 }]) ++
    [{ role := Role.user, content := message }]

/-! ### Basic lemmas about the segmenter step -/

theorem stepSeg_of_visible_cond (think_mode : Bool) (content : String)
    (h : (think_mode && hasSub content startMarker) = false) :
    stepSeg think_mode false content = (Classification.visible, false) := by
  simp [stepSeg, h]

theorem stepSeg_enter (think_mode : Bool) (content : String)
    (hm : think_mode = true) (h : hasSub content startMarker = true) :
    stepSeg think_mode false content = (Classification.reasoning, true) := by
  simp [stepSeg, hm, h]

theorem stepSeg_exit (think_mode : Bool) (content : String)
    (h : hasSub content endMarker = true) :
    stepSeg think_mode true content = (Classification.reasoning, false) := by
  simp [stepSeg, h]

theorem stepSeg_stay (think_mode : Bool) (content : String)
    (h : hasSub content endMarker = false) :
    stepSeg think_mode true content = (Classification.reasoning, true) := by
  simp [stepSeg, h]

theorem stepSeg_snd_of_visible {think_mode inT : Bool} {content : String}
    {b : Bool}
    (h : stepSeg think_mode inT content = (Classification.visible, b)) :
    b = inT := by
  unfold stepSeg at h
  split at h
  · split at h <;> simp_all
    split at h <;> simp_all
  · simp_all

theorem stepFrag_none (think_mode : Bool) (st : SegState) :
    stepFrag think_mode st none = (st, false) := rfl

theorem stepFrag_some_empty (think_mode : Bool) (st : SegState) :
    stepFrag think_mode st (some "") = (st, false) := rfl

theorem stepFrag_of_reasoning {think_mode : Bool} {st : SegState}
    {content : String} {t : Bool} (hc : content ≠ "")
    (h : stepSeg think_mode st.is_thinking content =
      (Classification.reasoning, t)) :
    stepFrag think_mode st (some content) =
      ({ st with is_thinking := t }, false) := by
  simp [stepFrag, hc, h]

theorem stepFrag_of_visible {think_mode : Bool} {st : SegState}
    {content : String} {b : Bool} (hc : content ≠ "")
    (h : stepSeg think_mode st.is_thinking content =
      (Classification.visible, b)) :
    stepFrag think_mode st (some content) =
      ({ st with full_response := st.full_response ++ content }, true) := by
  simp [stepFrag, hc, h]

theorem runFrags_append (think_mode : Bool) (a b : List (Option String)) :
    ∀ st : SegState,
      runFrags think_mode st (a ++ b) =
        runFrags think_mode (runFrags think_mode st a) b := by
  induction a with
  | nil => intro st; rfl
  | cons f fs ih => intro st; simp only [List.cons_append, runFrags]; exact ih _

theorem ne_empty_of_hasSub_start {s : String}
    (h : hasSub s startMarker = true) : s ≠ "" := by
  intro hs
  rw [hs] at h
  exact absurd h (by decide)

theorem ne_empty_of_hasSub_end {s : String}
    (h : hasSub s endMarker = true) : s ≠ "" := by
  intro hs
  rw [hs] at h
  exact absurd h (by decide)

/-! ### The accumulated answer is exactly the visible fragments -/

theorem runFrags_full_response (think_mode : Bool) :
    ∀ (frags : List (Option String)) (acc : String) (inT : Bool),
      (runFrags think_mode { full_response := acc, is_thinking := inT }
          frags).full_response
        = acc ++ concatList (visibleTexts think_mode inT frags) := by
  intro frags
  induction frags with
  | nil =>
    intro acc inT
    simp [runFrags, visibleTexts, classifySeq, concatList, String.append_empty]
  | cons f fs ih =>
    intro acc inT
    match f with
    | none =>
      simpa [runFrags, stepFrag, visibleTexts, classifySeq] using ih acc inT
    | some content =>
      by_cases hc : content = ""
      · subst hc
        simpa [runFrags, stepFrag, visibleTexts, classifySeq] using ih acc inT
      · rcases hstep : stepSeg think_mode inT content with ⟨c, t⟩
        cases c with
        | reasoning =>
          rw [runFrags, stepFrag_of_reasoning hc hstep]
          simpa [visibleTexts, classifySeq, hc, hstep] using ih acc t
        | visible =>
          have ht : t = inT := stepSeg_snd_of_visible hstep
          subst ht
          rw [runFrags, stepFrag_of_visible hc hstep]
          simp only [visibleTexts, classifySeq, hc, hstep, if_neg hc,
            List.filterMap_cons]
          rw [ih (acc ++ content) t]
          simp [visibleTexts, concatList, String.append_assoc]

theorem visibleTexts_sublist (think_mode : Bool) :
    ∀ (frags : List (Option String)) (inT : Bool),
      (visibleTexts think_mode inT frags).Sublist
        (frags.map fun f => f.getD "") := by
  intro frags
  induction frags with
  | nil => intro inT; simp [visibleTexts, classifySeq]
  | cons f fs ih =>
    intro inT
    match f with
    | none =>
      simpa [visibleTexts, classifySeq] using List.Sublist.cons "" (ih inT)
    | some content =>
      by_cases hc : content = ""
      · subst hc
        simpa [visibleTexts, classifySeq] using List.Sublist.cons "" (ih inT)
      · rcases hstep : stepSeg think_mode inT content with ⟨c, t⟩
        cases c with
        | reasoning =>
          simp only [visibleTexts, classifySeq, if_neg hc, hstep,
            List.filterMap_cons, List.map_cons, Option.getD_some]
          exact List.Sublist.cons content (ih t)
        | visible =>
          simp only [visibleTexts, classifySeq, if_neg hc, hstep,
            List.filterMap_cons, List.map_cons, Option.getD_some]
          exact List.Sublist.cons₂ content (ih t)

/-! ### Runs that never touch a marker, and runs inside a segment -/

theorem runFrags_all_visible (think_mode : Bool) :
    ∀ (frags : List (Option String)) (acc : String),
      (∀ f ∈ frags, (think_mode && hasSub (f.getD "") startMarker) = false) →
      runFrags think_mode { full_response := acc, is_thinking := false } frags
        = { full_response := acc ++ concatList (frags.map fun f => f.getD ""),
            is_thinking := false } := by
  intro frags
  induction frags with
  | nil => intro acc _; simp [runFrags, concatList, String.append_empty]
  | cons f fs ih =>
    intro acc h
    have hf := h f (List.mem_cons_self f fs)
    have hrest : ∀ g ∈ fs,
        (think_mode && hasSub (g.getD "") startMarker) = false :=
      fun g hg => h g (List.mem_cons_of_mem f hg)
    match f with
    | none =>
      rw [runFrags, stepFrag_none, ih acc hrest]
      simp [concatList, String.empty_append]
    | some content =>
      by_cases hc : content = ""
      · subst hc
        rw [runFrags, stepFrag_some_empty, ih acc hrest]
        simp [concatList, String.empty_append]
      · have hstep : stepSeg think_mode false content =
            (Classification.visible, false) :=
          stepSeg_of_visible_cond think_mode content (by simpa using hf)
        rw [runFrags, stepFrag_of_visible hc hstep, ih (acc ++ content) hrest]
        simp [concatList, String.append_assoc]

theorem classifySeq_all_visible (think_mode : Bool) :
    ∀ frags : List (Option String),
      (∀ f ∈ frags, (think_mode && hasSub (f.getD "") startMarker) = false) →
      ∀ p ∈ classifySeq think_mode false frags,
        p.2 = Classification.visible := by
  intro frags
  induction frags with
  | nil => intro _ p hp; simp [classifySeq] at hp
  | cons f fs ih =>
    intro h p hp
    have hf := h f (List.mem_cons_self f fs)
    have hrest : ∀ g ∈ fs,
        (think_mode && hasSub (g.getD "") startMarker) = false :=
      fun g hg => h g (List.mem_cons_of_mem f hg)
    match f with
    | none => exact ih hrest p (by simpa [classifySeq] using hp)
    | some content =>
      by_cases hc : content = ""
      · subst hc
        exact ih hrest p (by simpa [classifySeq] using hp)
      · have hstep : stepSeg think_mode false content =
            (Classification.visible, false) :=
          stepSeg_of_visible_cond think_mode content (by simpa using hf)
        rw [classifySeq] at hp
        simp only [if_neg hc, hstep, List.mem_cons] at hp
        rcases hp with hp | hp
        · rw [hp]
        · exact ih hrest p hp

theorem runFrags_in_segment (think_mode : Bool) :
    ∀ (frags : List (Option String)) (acc : String),
      (∀ f ∈ frags, hasSub (f.getD "") endMarker = false) →
      runFrags think_mode { full_response := acc, is_thinking := true } frags
        = { full_response := acc, is_thinking := true } := by
  intro frags
  induction frags with
  | nil => intro acc _; rfl
  | cons f fs ih =>
    intro acc h
    have hf := h f (List.mem_cons_self f fs)
    have hrest : ∀ g ∈ fs, hasSub (g.getD "") endMarker = false :=
      fun g hg => h g (List.mem_cons_of_mem f hg)
    match f with
    | none => rw [runFrags, stepFrag_none]; exact ih acc hrest
    | some content =>
      by_cases hc : content = ""
      · subst hc; rw [runFrags, stepFrag_some_empty]; exact ih acc hrest
      · have hstep : stepSeg think_mode true content =
            (Classification.reasoning, true) :=
          stepSeg_stay think_mode content (by simpa using hf)
        rw [runFrags, stepFrag_of_reasoning hc hstep]
        exact ih acc hrest

/-! ### String-list variants (all fragments present and tagged) -/

theorem runFrags_all_visible_str (think_mode : Bool) (fs : List String)
    (acc : String)
    (h : ∀ f ∈ fs, (think_mode && hasSub f startMarker) = false) :
    runFrags think_mode { full_response := acc, is_thinking := false }
        (fs.map some)
      = { full_response := acc ++ concatList fs, is_thinking := false } := by
  have h' : ∀ f ∈ fs.map some,
      (think_mode && hasSub (f.getD "") startMarker) = false := by
    intro f hf
    rcases List.mem_map.mp hf with ⟨x, hx, rfl⟩
    simpa using h x hx
  have hmap : ∀ l : List String, (l.map some).map (fun f => f.getD "") = l := by
    intro l
    induction l with
    | nil => rfl
    | cons a as ih => simp only [List.map_cons, Option.getD_some, ih]
  rw [runFrags_all_visible think_mode (fs.map some) acc h', hmap]

theorem runFrags_in_segment_str (think_mode : Bool) (fs : List String)
    (acc : String) (h : ∀ f ∈ fs, hasSub f endMarker = false) :
    runFrags think_mode { full_response := acc, is_thinking := true }
        (fs.map some)
      = { full_response := acc, is_thinking := true } := by
  have h' : ∀ f ∈ fs.map some, hasSub (f.getD "") endMarker = false := by
    intro f hf
    rcases List.mem_map.mp hf with ⟨x, hx, rfl⟩
    simpa using h x hx
  exact runFrags_in_segment think_mode (fs.map some) acc h'

/-! ### Emission counting and the conversation-builder fold -/

theorem runEmits_length (think_mode : Bool) (history : Transcript)
    (message : String) :
    ∀ (frags : List (Option String)) (st : SegState),
      (runEmits think_mode history message st frags).length
        = (visibleTexts think_mode st.is_thinking frags).length := by
  intro frags
  induction frags with
  | nil => intro st; simp [runEmits, visibleTexts, classifySeq]
  | cons f fs ih =>
    intro st
    match f with
    | none =>
      rw [runEmits]
      simp only [stepFrag_none]
      simpa [visibleTexts, classifySeq] using ih st
    | some content =>
      by_cases hc : content = ""
      · subst hc
        rw [runEmits]
        simp only [stepFrag_some_empty]
        simpa [visibleTexts, classifySeq] using ih st
      · rcases hstep : stepSeg think_mode st.is_thinking content with ⟨c, t⟩
        cases c with
        | reasoning =>
          rw [runEmits]
          simp only [stepFrag_of_reasoning hc hstep]
          have := ih { st with is_thinking := t }
          simp only [visibleTexts, classifySeq, if_neg hc, hstep,
            List.filterMap_cons] at this ⊢
          simpa using this
        | visible =>
          have ht : t = st.is_thinking := stepSeg_snd_of_visible hstep
          rw [runEmits]
          simp only [stepFrag_of_visible hc hstep]
          have := ih { st with
            full_response := st.full_response ++ content }
          simp only [visibleTexts, classifySeq, if_neg hc, hstep, ht,
            List.filterMap_cons] at this ⊢
          simpa using this

theorem foldl_turn_pairs :
    ∀ (history : Transcript) (init : List ChatMsg),
      history.foldl
          (fun acc t =>
            acc ++ [{ role := Role.user, content := t.1 },
                    { role := Role.assistant, content := t.2 }])
          init
        = init ++ (history.flatMap fun t =>
            [{ role := Role.user, content := t.1 },
             { role := Role.assistant, content := t.2 }]) := by
  intro history
  induction history with
  | nil => intro init; simp
  | cons t ts ih =>
    intro init
    simp only [List.foldl_cons, List.flatMap_cons, ih, List.append_assoc]

theorem classifySeq_in_segment (think_mode : Bool) :
    ∀ frags : List (Option String),
      (∀ f ∈ frags, hasSub (f.getD "") endMarker = false) →
      ∀ p ∈ classifySeq think_mode true frags,
        p.2 = Classification.reasoning := by
  intro frags
  induction frags with
  | nil => intro _ p hp; simp [classifySeq] at hp
  | cons f fs ih =>
    intro h p hp
    have hf := h f (List.mem_cons_self f fs)
    have hrest : ∀ g ∈ fs, hasSub (g.getD "") endMarker = false :=
      fun g hg => h g (List.mem_cons_of_mem f hg)
    match f with
    | none => exact ih hrest p (by simpa [classifySeq] using hp)
    | some content =>
      by_cases hc : content = ""
      · subst hc
        exact ih hrest p (by simpa [classifySeq] using hp)
      · have hstep : stepSeg think_mode true content =
            (Classification.reasoning, true) :=
          stepSeg_stay think_mode content (by simpa using hf)
        rw [classifySeq] at hp
        simp only [if_neg hc, hstep, List.mem_cons] at hp
        rcases hp with hp | hp
        · rw [hp]
        · exact ih hrest p hp

/-! ### Claim theorems -/

/-- C2: at every point during one turn's stream processing (after the first
`k` fragments, for any `k`), the in-flight answer `full_response` equals the
concatenation, in arrival order, of exactly those nonempty fragments
classified visible so far; text of reasoning-classified fragments never
enters it. -/
theorem assistant_text_eq_visible_concat (think_mode : Bool)
    (frags : List (Option String)) (k : Nat) :
    (runFrags think_mode initState (List.take k frags)).full_response
      = concatList (visibleTexts think_mode false (List.take k frags)) := by
  have h := runFrags_full_response think_mode (List.take k frags) "" false
  simpa [initState, String.empty_append] using h

/-- C10: classification is per-fragment atomic: at every point the
accumulated answer is the concatenation of the complete texts of a
subsequence of the stream's fragments; no proper substring of a fragment is
ever added or trimmed. -/
theorem assistant_text_fragment_atomic (think_mode : Bool)
    (frags : List (Option String)) (k : Nat) :
    ∃ sub : List String,
      sub.Sublist ((List.take k frags).map fun f => f.getD "") ∧
        (runFrags think_mode initState (List.take k frags)).full_response
          = concatList sub := by
  refine ⟨visibleTexts think_mode false (List.take k frags),
    visibleTexts_sublist think_mode (List.take k frags) false, ?_⟩
  have h := runFrags_full_response think_mode (List.take k frags) "" false
  simpa [initState, String.empty_append] using h

/-- C3: with reasoning mode disabled no fragment is ever classified
reasoning, whatever marker text it carries, and the final answer is the
full in-order concatenation of all fragment texts, literal markers
included. -/
theorem nothink_all_visible (frags : List (Option String)) :
    (∀ p ∈ classifySeq false false frags, p.2 = Classification.visible) ∧
      assistantText false frags
        = concatList (frags.map fun f => f.getD "") := by
  have hcond : ∀ f ∈ frags,
      (false && hasSub (f.getD "") startMarker) = false := fun f _ => rfl
  refine ⟨classifySeq_all_visible false frags hcond, ?_⟩
  have h := runFrags_all_visible false frags "" hcond
  have h2 : assistantText false frags
      = "" ++ concatList (frags.map fun f => f.getD "") := by
    unfold assistantText initState
    rw [h]
  simpa [String.empty_append] using h2

/-- C4: if no fragment's text contains the start marker, every nonempty
fragment is classified visible, and the final answer is the concatenation of
all fragment texts in order, in either reasoning mode. -/
theorem no_marker_all_visible (think_mode : Bool)
    (frags : List (Option String))
    (h : ∀ f ∈ frags, hasSub (f.getD "") startMarker = false) :
    (∀ p ∈ classifySeq think_mode false frags,
        p.2 = Classification.visible) ∧
      assistantText think_mode frags
        = concatList (frags.map fun f => f.getD "") := by
  have hcond : ∀ f ∈ frags,
      (think_mode && hasSub (f.getD "") startMarker) = false := by
    intro f hf
    rw [h f hf, Bool.and_false]
  refine ⟨classifySeq_all_visible think_mode frags hcond, ?_⟩
  have h1 := runFrags_all_visible think_mode frags "" hcond
  have h2 : assistantText think_mode frags
      = "" ++ concatList (frags.map fun f => f.getD "") := by
    unfold assistantText initState
    rw [h1]
  simpa [String.empty_append] using h2

/-- Witness for C4 at the spec's scenario `fragments = [\x22Hello\x22]`. -/
theorem no_marker_all_visible_witness :
    ((∀ p ∈ classifySeq true false [some "Hello"],
        p.2 = Classification.visible) ∧
      assistantText true [some "Hello"]
        = concatList ([some "Hello"].map fun f => f.getD "")) ∧
      assistantText true [some "Hello"] = "Hello" :=
  ⟨no_marker_all_visible true [some "Hello"] (by decide), by decide⟩

/-- C6: the conversation builder produces one system message (the policy
preamble with suffix \x22 /think\x22 when reasoning is enabled and
\x22 /nothink\x22 when disabled), then one user and one assistant message per
prior turn in original order, then the new user message; and the side effect
appends `[message, \x22\x22]` to the transcript. -/
theorem build_messages_matches_spec (think_mode : Bool)
    (history : Transcript) (message : String) :
    buildMessages think_mode history message
        = builderSpec think_mode history message ∧
      historyAfterSubmit history message = history ++ [(message, "")] := by
  refine ⟨?_, rfl⟩
  unfold buildMessages builderSpec
  cases think_mode <;>
    simp [foldl_turn_pairs, List.append_assoc]

/-- C7: a fragment whose content is missing, `None`, or empty is dropped:
the loop state is unchanged, nothing is classified, nothing joins the
answer, and no snapshot is yielded. -/
theorem empty_fragment_dropped (think_mode : Bool) (st : SegState)
    (inT : Bool) (history : Transcript) (message : String)
    (fs : List (Option String)) (f : Option String)
    (h : f = none ∨ f = some "") :
    stepFrag think_mode st f = (st, false) ∧
      classifySeq think_mode inT (f :: fs) = classifySeq think_mode inT fs ∧
      runEmits think_mode history message st (f :: fs)
        = runEmits think_mode history message st fs := by
  rcases h with rfl | rfl
  · refine ⟨rfl, rfl, ?_⟩
    rw [runEmits]
    simp [stepFrag_none]
  · refine ⟨stepFrag_some_empty think_mode st, by simp [classifySeq], ?_⟩
    rw [runEmits]
    simp [stepFrag_some_empty]

/-- Witness for C7: a `None`-content fragment at stream start is a no-op. -/
theorem empty_fragment_dropped_witness :
    stepFrag true initState none = (initState, false) ∧
      classifySeq true false [none] = classifySeq true false [] ∧
      runEmits true [] "q" initState [none]
        = runEmits true [] "q" initState [] :=
  empty_fragment_dropped true initState false [] "q" [] none (Or.inl rfl)

/-- C8: a reasoning-classified fragment yields no snapshot and leaves the
in-flight transcript (hence the accumulated answer) unchanged; a
visible-classified fragment yields, and over a whole stream exactly one
snapshot is produced per visible-classified fragment. -/
theorem reasoning_silent_visible_emits (think_mode : Bool)
    (history : Transcript) (message : String) (st : SegState) (s : String)
    (frags : List (Option String)) (hs : s ≠ "") :
    ((stepSeg think_mode st.is_thinking s).1 = Classification.reasoning →
        (stepFrag think_mode st (some s)).2 = false ∧
          transcriptView history message (stepFrag think_mode st (some s)).1
            = transcriptView history message st) ∧
      ((stepSeg think_mode st.is_thinking s).1 = Classification.visible →
        (stepFrag think_mode st (some s)).2 = true ∧
          (stepFrag think_mode st (some s)).1.full_response
            = st.full_response ++ s) ∧
      (runEmits think_mode history message initState frags).length
        = (visibleTexts think_mode false frags).length := by
  refine ⟨?_, ?_, ?_⟩
  · intro hr
    rcases hstep : stepSeg think_mode st.is_thinking s with ⟨c, t⟩
    rw [hstep] at hr
    cases c with
    | visible => exact absurd hr (by simp)
    | reasoning =>
      rw [stepFrag_of_reasoning hs hstep]
      exact ⟨rfl, rfl⟩
  · intro hv
    rcases hstep : stepSeg think_mode st.is_thinking s with ⟨c, t⟩
    rw [hstep] at hv
    cases c with
    | reasoning => exact absurd hv (by simp)
    | visible =>
      rw [stepFrag_of_visible hs hstep]
      exact ⟨rfl, rfl⟩
  · exact runEmits_length think_mode history message frags initState

/-- Witness for C8 on the stream
`[\x22<think>\x22, \x22</think>\x22, \x22Paris\x22]` with reasoning mode
enabled, probing the first fragment (classified reasoning). -/
theorem reasoning_silent_visible_emits_witness :
    ((stepSeg true initState.is_thinking "<think>").1 =
          Classification.reasoning →
        (stepFrag true initState (some "<think>")).2 = false ∧
          transcriptView [] "q" (stepFrag true initState (some "<think>")).1
            = transcriptView [] "q" initState) ∧
      ((stepSeg true initState.is_thinking "<think>").1 =
          Classification.visible →
        (stepFrag true initState (some "<think>")).2 = true ∧
          (stepFrag true initState (some "<think>")).1.full_response
            = initState.full_response ++ "<think>") ∧
      (runEmits true [] "q" initState
          [some "<think>", some "</think>", some "Paris"]).length
        = (visibleTexts true false
            [some "<think>", some "</think>", some "Paris"]).length :=
  reasoning_silent_visible_emits true [] "q" initState "<think>"
    [some "<think>", some "</think>", some "Paris"] (by decide)

/-- C9: with reasoning mode enabled and the segmenter outside a segment, a
fragment containing both markers is classified reasoning and leaves the
segmenter inside the segment — the end marker is not recognized in the same
fragment that triggered the start transition; while inside, fragments
without the end marker stay reasoning and keep the segment open, and a
fragment with the end marker is classified reasoning and closes it. -/
theorem same_fragment_end_not_recognized (s s2 s3 : String)
    (mid : List (Option String))
    (hstart : hasSub s startMarker = true)
    (_hend : hasSub s endMarker = true)
    (h2 : hasSub s2 endMarker = false)
    (h3 : hasSub s3 endMarker = true)
    (hmid : ∀ f ∈ mid, hasSub (f.getD "") endMarker = false) :
    stepSeg true false s = (Classification.reasoning, true) ∧
      stepSeg true true s2 = (Classification.reasoning, true) ∧
      stepSeg true true s3 = (Classification.reasoning, false) ∧
      (∀ p ∈ classifySeq true true mid, p.2 = Classification.reasoning) := by
  refine ⟨stepSeg_enter true s rfl hstart, stepSeg_stay true s2 h2,
    stepSeg_exit true s3 h3, classifySeq_in_segment true mid hmid⟩

/-- Witness for C9 at the fragment `\x22<think>secret</think>\x22`. -/
theorem same_fragment_end_not_recognized_witness :
    stepSeg true false "<think>secret</think>"
        = (Classification.reasoning, true) ∧
      stepSeg true true "still secret" = (Classification.reasoning, true) ∧
      stepSeg true true "</think>" = (Classification.reasoning, false) ∧
      (∀ p ∈ classifySeq true true [some "a", some "b"],
        p.2 = Classification.reasoning) :=
  same_fragment_end_not_recognized "<think>secret</think>" "still secret"
    "</think>" [some "a", some "b"] (by decide) (by decide) (by decide)
    (by decide) (by decide)

/-- C1 counterexample: on `[\x22Hello<think>\x22, \x22secret\x22,
\x22</think>\x22, \x22Paris\x22]` with reasoning mode enabled — exactly one
start marker (in the first fragment, together with visible-looking text
before it) and one end marker (alone in the third fragment) — the final
answer is `\x22Paris\x22`, not `\x22HelloParis\x22`: the text before the
start marker that shares a fragment with it is excluded, contradicting the
claim that such text is included. -/
theorem marker_fragment_text_lost :
    hasSub "Hello<think>" startMarker = true ∧
      hasSub "secret" startMarker = false ∧
      hasSub "secret" endMarker = false ∧
      hasSub "</think>" startMarker = false ∧
      hasSub "</think>" endMarker = true ∧
      hasSub "Paris" startMarker = false ∧
      hasSub "Paris" endMarker = false ∧
      assistantText true
          [some "Hello<think>", some "secret", some "</think>", some "Paris"]
        = "Paris" ∧
      ("Paris" : String) ≠ "Hello" ++ "Paris" := by
  refine ⟨?_, ?_, ?_, ?_, ?_, ?_, ?_, ?_, ?_⟩ <;> decide

/-- C1 (amended): with reasoning mode enabled, for a stream consisting of
marker-free fragments `pre`, then a fragment containing the start marker,
then end-marker-free fragments `mid`, then a fragment containing the end
marker, then start-marker-free fragments `post`, the final answer is the
concatenation of `pre` and `post`: everything from the start-marker
fragment through the end-marker fragment inclusive is excluded, including
any non-marker text inside the two marker-bearing fragments. -/
theorem single_think_segment_suppressed
    (pre : List String) (s : String) (mid : List String) (e : String)
    (post : List String)
    (hpre : ∀ f ∈ pre, hasSub f startMarker = false)
    (hs : hasSub s startMarker = true)
    (hmid : ∀ f ∈ mid, hasSub f endMarker = false)
    (he : hasSub e endMarker = true)
    (hpost : ∀ f ∈ post, hasSub f startMarker = false) :
    assistantText true
        (pre.map some ++ some s :: (mid.map some ++ some e :: post.map some))
      = concatList pre ++ concatList post := by
  have hpre' : ∀ f ∈ pre, (true && hasSub f startMarker) = false := by
    intro f hf
    rw [Bool.true_and]
    exact hpre f hf
  have hpost' : ∀ f ∈ post, (true && hasSub f startMarker) = false := by
    intro f hf
    rw [Bool.true_and]
    exact hpost f hf
  have hsne : s ≠ "" := ne_empty_of_hasSub_start hs
  have hene : e ≠ "" := ne_empty_of_hasSub_end he
  have h1 := runFrags_all_visible_str true pre "" hpre'
  rw [String.empty_append] at h1
  have h2 : stepFrag true ⟨concatList pre, false⟩ (some s)
      = (⟨concatList pre, true⟩, false) :=
    @stepFrag_of_reasoning true ⟨concatList pre, false⟩ s true hsne
      (stepSeg_enter true s rfl hs)
  have h3 : stepFrag true ⟨concatList pre, true⟩ (some e)
      = (⟨concatList pre, false⟩, false) :=
    @stepFrag_of_reasoning true ⟨concatList pre, true⟩ e false hene
      (stepSeg_exit true e he)
  unfold assistantText initState
  rw [runFrags_append, h1, runFrags, h2]
  show (runFrags true ⟨concatList pre, true⟩
      (mid.map some ++ some e :: post.map some)).full_response
    = concatList pre ++ concatList post
  rw [runFrags_append, runFrags_in_segment_str true mid (concatList pre) hmid,
    runFrags, h3]
  show (runFrags true ⟨concatList pre, false⟩
      (post.map some)).full_response
    = concatList pre ++ concatList post
  rw [runFrags_all_visible_str true post (concatList pre) hpost']

/-- Witness for C1 (amended) at
`[\x22Before \x22, \x22<think>\x22, \x22secret\x22, \x22</think>\x22,
\x22After\x22]`. -/
theorem single_think_segment_suppressed_witness :
    assistantText true
        (["Before "].map some ++ some "<think>" ::
          (["secret"].map some ++ some "</think>" :: ["After"].map some))
      = concatList ["Before "] ++ concatList ["After"] ∧
      concatList ["Before "] ++ concatList ["After"] = "Before After" :=
  ⟨single_think_segment_suppressed ["Before "] "<think>" ["secret"]
    "</think>" ["After"] (by decide) (by decide) (by decide) (by decide)
    (by decide), by decide⟩

/-- C5 counterexample: the stream `[\x22<think>\x22, \x22</think><think>\x22,
\x22after\x22]` with reasoning mode enabled contains a start marker (in the
second fragment) with no end marker in any later fragment, yet the final
answer is `\x22after\x22`, not the visible text accumulated before that
start marker (which is `\x22\x22`): the second fragment closes the open
segment, and its start marker is never recognized, so no unterminated
segment arises. -/
theorem unterminated_after_exit_example :
    hasSub "</think><think>" startMarker = true ∧
      hasSub "after" endMarker = false ∧
      assistantText true
          [some "<think>", some "</think><think>", some "after"]
        = "after" ∧
      (runFrags true initState [some "<think>"]).full_response = "" ∧
      ("after" : String) ≠ "" := by
  refine ⟨?_, ?_, ?_, ?_, ?_⟩ <;> decide

/-- C5 (amended): with reasoning mode enabled, if a fragment containing the
start marker is processed while the segmenter is outside a reasoning
segment (so it actually opens one) and no later fragment contains the end
marker, the stream completes with the final answer equal to the visible
text accumulated strictly before that fragment. -/
theorem unterminated_segment_truncates
    (pre post : List (Option String)) (s : String)
    (h1 : (runFrags true initState pre).is_thinking = false)
    (h2 : hasSub s startMarker = true)
    (h3 : ∀ f ∈ post, hasSub (f.getD "") endMarker = false) :
    assistantText true (pre ++ some s :: post)
      = (runFrags true initState pre).full_response := by
  have hsne : s ≠ "" := ne_empty_of_hasSub_start h2
  unfold assistantText
  rcases hrun : runFrags true initState pre with ⟨acc, inT⟩
  rw [hrun] at h1
  have hT : inT = false := h1
  subst hT
  have hstep : stepFrag true ⟨acc, false⟩ (some s) = (⟨acc, true⟩, false) :=
    @stepFrag_of_reasoning true ⟨acc, false⟩ s true hsne
      (stepSeg_enter true s rfl h2)
  rw [runFrags_append, hrun, runFrags, hstep]
  show (runFrags true ⟨acc, true⟩ post).full_response
    = SegState.full_response ⟨acc, false⟩
  rw [runFrags_in_segment true post acc h3]

/-- Witness for C5 (amended) at `[\x22A\x22, \x22<think>\x22, \x22B\x22]`. -/
theorem unterminated_segment_truncates_witness :
    assistantText true ([some "A"] ++ some "<think>" :: [some "B"])
        = (runFrags true initState [some "A"]).full_response ∧
      (runFrags true initState [some "A"]).full_response = "A" :=
  ⟨unterminated_segment_truncates [some "A"] [some "B"] "<think>"
    (by decide) (by decide) (by decide), by decide⟩

end QwenChat
